import Mathlib

/-!
Lamport mutual exclusion: the resource guard and the process agent.

A shallow embedding of `src/Mutual-Exclusion/code/resource.go` and of
`src/process.go` (package `mutual`), followed by the properties of the guard
and of the process agent.  The rendering of messages, of which only
`src/Mutual-Exclusion/code/message_test.go` is available, is modelled from the
strings that test expects.

Conventions of the embedding

* Go `int` values (logical times, process identifiers, slice indices that
  come from message fields) are `Int`; no arithmetic of the program comes
  near the 64-bit boundary in the properties below, so no wrap-around is
  modelled.
* A Go `panic` is the `Outcome.panic` alternative.  It carries the reason and
  the state the receiver object is in when the panic is raised, so that
  "nothing was modified before the failure" can be stated.
* `time.Now()` is an input: the wall-clock reading is passed as an argument.
* Pointers to requests are never nil and requests are immutable, so a
  `*request` is modelled by its value.
* Every method body is one atomic step.  The lock `rwmu`, the signal channel
  `toCheckRule5Chan` and `debugPrintf` are not part of the state; the lock
  `occupying` is a Boolean and the `sync.WaitGroup` of the guard is its
  counter.  `newProcess` leaves both lock pointers nil: they are taken as
  allocated before the process runs.  No source file raises the counter of the
  `WaitGroup`; the number added by the owner of the guard is a parameter of
  `startSystemWith`.
* A channel is the list of the messages sent on it and not yet received; a
  send never blocks.
-/

namespace Mutual

/-! ## Outcomes of method calls -/

/-- Reasons for which the embedded methods panic. -/
inductive Fault where
  /-- Raised by `occupy2` / `occupy`: the resource is already taken. -/
  | alreadyOccupied
  /-- Raised by `release2` / `release`: the caller is not the recorded holder. -/
  | notHolder
  /-- The Go runtime error "index out of range". -/
  | indexOutOfRange
  /-- The Go runtime error "integer divide by zero". -/
  | divideByZero
  /-- The panic "sync: negative WaitGroup counter" of `WaitGroup.Done`. -/
  | negativeWaitGroup
  deriving DecidableEq, Repr

/-- Result of running a method body: normal return with the new state, or a
panic together with the state reached when it was raised. -/
inductive Outcome (σ : Type) where
  | ok (s : σ)
  | panic (why : Fault) (s : σ)
  deriving DecidableEq, Repr

/-- True when the call returned normally. -/
def Outcome.isOk {σ : Type} : Outcome σ → Bool
  | .ok _ => true
  | .panic _ _ => false

/-- The state left behind by the call, whether it returned or panicked. -/
def Outcome.state {σ : Type} : Outcome σ → σ
  | .ok s => s
  | .panic _ s => s

/-! ## resource.go -/

/-- The Go struct `timestamp{time, process}`; `!=` on it compares both fields. -/
structure timestamp where
  time : Int
  process : Int
  deriving DecidableEq, Repr

/-- Modelled from the spec: the constant `others` is declared in a file that is
not among the sources; `message_test.go` passes it as the receiver and expects
the rendering `To:-1`, so its value is `-1`. -/
def others : Int := -1

/-- The Go variable `NOBODY = -1`. -/
def NOBODY : Int := -1

/-- The Go variable `NOBODY2 = timestamp{time: -1, process: others}`. -/
def NOBODY2 : timestamp := { time := -1, process := others }

/-- The Go struct `resource`.  `times` holds the wall-clock readings appended by
`occupy2` and `release2`; `occupieds` is the counter of the `sync.WaitGroup` of
that name. -/
structure resource where
  occupiedBy2 : timestamp
  occupiedBy : Int
  procOrder : List Int
  timeOrder : List Int
  occupieds : Int
  timestamps : List timestamp
  times : List Int
  deriving DecidableEq, Repr

/-- The Go function `newResource`: both holder fields say "nobody", the slices
are nil and the counter of the zero-valued `WaitGroup` is 0. -/
def newResource : resource :=
  { occupiedBy2 := NOBODY2
    occupiedBy := NOBODY
    procOrder := []
    timeOrder := []
    occupieds := 0
    timestamps := []
    times := [] }

/-- The Go method `resource.occupy2(ts)`; `now` is the value of `time.Now()`.
The panic is raised before any field is written. -/
def resource.occupy2 (r : resource) (ts : timestamp) (now : Int) : Outcome resource :=
  if r.occupiedBy2 ≠ NOBODY2 then
    .panic .alreadyOccupied r
  else
    .ok { r with
      occupiedBy2 := ts
      timestamps := r.timestamps ++ [ts]
      times := r.times ++ [now] }

/-- The Go method `resource.release2(ts)`; `now` is the value of `time.Now()`.
The panic is raised before any field is written. -/
def resource.release2 (r : resource) (ts : timestamp) (now : Int) : Outcome resource :=
  if r.occupiedBy2 ≠ ts then
    .panic .notHolder r
  else
    .ok { r with
      occupiedBy2 := NOBODY2
      times := r.times ++ [now] }

/-- One call on the guard through its timestamp interface. -/
inductive GuardCall where
  | occupy2 (ts : timestamp) (now : Int)
  | release2 (ts : timestamp) (now : Int)
  deriving DecidableEq, Repr

/-- Run one call. -/
def GuardCall.apply (r : resource) : GuardCall → Outcome resource
  | .occupy2 ts now => r.occupy2 ts now
  | .release2 ts now => r.release2 ts now

/-- The guard after a sequence of calls.  A call that panics has written
nothing, so the guard it leaves is the one it found; the sequence goes on from
there (a run that stops at the first panic is a prefix of such a sequence). -/
def guardAfter (r : resource) : List GuardCall → resource
  | [] => r
  | c :: cs => guardAfter (GuardCall.apply r c).state cs

/-- The call `c`, issued after the calls `before` on a fresh guard, returns
normally. -/
def succeedsAfter (before : List GuardCall) (c : GuardCall) : Bool :=
  (GuardCall.apply (guardAfter newResource before) c).isOk

/-- The Go method `resource.occupy`, the guard interface keyed by process
identifier that `process.go` calls as `rsc.occupy(p.me)`; the argument stands
for `req.process`.  The call site supplies no request time, so the write-only
`timeOrder` log is not extended. -/
def resource.occupy (r : resource) (process : Int) : Outcome resource :=
  if r.occupiedBy ≠ NOBODY then
    .panic .alreadyOccupied r
  else
    .ok { r with
      occupiedBy := process
      procOrder := r.procOrder ++ [process] }

/-- The Go method `resource.release`, called by `process.go` as
`rsc.release(p.me)`; the argument stands for `req.process`.  After the guard
is freed, `r.occupieds.Done()` lowers the counter of the `WaitGroup` by one and
panics when the counter becomes negative; the counter is written before the
panic is raised. -/
def resource.release (r : resource) (process : Int) : Outcome resource :=
  if r.occupiedBy ≠ process then
    .panic .notHolder r
  else
    let r1 := { r with occupiedBy := NOBODY, occupieds := r.occupieds - 1 }
    if r1.occupieds < 0 then
      .panic .negativeWaitGroup r1
    else
      .ok r1

/-- Modelled from the spec: the function `less` on timestamps is declared in a
file that is not among the sources.  The spec gives the total order
"`a < b` iff `a.logical_time < b.logical_time`, or equal and
`a.process_id < b.process_id`". -/
def less (a b : timestamp) : Bool :=
  a.time < b.time || (a.time = b.time && a.process < b.process)

/-- The loop `for i := 1; i < size; i++` of `isSortedOccupied` over the indices
`i` still to visit: the first pair `timestamps[i-1]`, `timestamps[i]` that is
not in order makes it return false.  The indices visited are inside the slice;
the default of `getD` is never used. -/
def sortedLoop (ts : List timestamp) : List Nat → Bool
  | [] => true
  | i :: rest =>
    if !less (ts.getD (i - 1) NOBODY2) (ts.getD i NOBODY2) then
      false
    else
      sortedLoop ts rest

/-- The Go method `resource.isSortedOccupied()`: the loop runs over
`i = 1, ..., size - 1`. -/
def resource.isSortedOccupied (r : resource) : Bool :=
  sortedLoop r.timestamps (List.range' 1 (r.timestamps.length - 1))

/-! ## process.go -/

/-- Modelled from the spec: the type `clock` (`newClock`, `getTime`, `tick`,
`update`) is declared in a file that is not among the sources.  The spec gives
a counter that starts at 0, is incremented by `tick`, is set to
`max(current, received) + 1` on receipt of a message and is read without
mutation. -/
structure clock where
  time : Int
  deriving DecidableEq, Repr

/-- Modelled from the spec: the clock is created with value 0. -/
def newClock : clock := { time := 0 }

/-- Modelled from the spec: reads the current value. -/
def clock.getTime (c : clock) : Int := c.time

/-- Modelled from the spec: increments the value by 1. -/
def clock.tick (c : clock) : clock := { time := c.time + 1 }

/-- Modelled from the spec: sets the value to `max(current, t) + 1`. -/
def clock.update (c : clock) (t : Int) : clock := { time := max c.time t + 1 }

/-- The Go struct `request{time, process}` as built in `process.request`.
Requests are immutable once built, so the pointer is modelled by its value. -/
structure request where
  time : Int
  process : Int
  deriving DecidableEq, Repr

/-- The three message kinds named in the sources. -/
inductive msgType where
  | requestResource
  | releaseResource
  | acknowledgment
  deriving DecidableEq, Repr

/-- The Go struct `message` as built in `process.messaging`. -/
structure message where
  msgType : msgType
  time : Int
  senderID : Int
  request : request
  deriving DecidableEq, Repr

/-- The Go struct `process`.  `nchans` is `len(p.chans)`; the channels
themselves belong to the system.  `occupying` is the state of the lock of that
name (true when locked). -/
structure process where
  me : Int
  clock : clock
  nchans : Nat
  requestQueue : List request
  sentTime : List Int
  receiveTime : List Int
  minReceiveTime : Int
  occupying : Bool
  deriving DecidableEq, Repr

/-- The Go function `newProcess(me, chans)` for `len(chans) = nchans`. -/
def newProcess (me : Int) (nchans : Nat) : process :=
  { me := me
    clock := newClock
    nchans := nchans
    requestQueue := []
    sentTime := List.replicate nchans 0
    receiveTime := List.replicate nchans 0
    minReceiveTime := 0
    occupying := false }

/-- A message put on channel `chans[dest]`. -/
structure sending where
  dest : Nat
  msg : message
  deriving DecidableEq, Repr

/-- The loop of `process.messaging` over the channel indices still to visit:
the own index is skipped, every other channel gets a message stamped with the
current clock value, and the clock ticks after each send. -/
def process.sendLoop (mt : msgType) (r : Mutual.request) : process → List Nat → process × List sending
  | p, [] => (p, [])
  | p, i :: rest =>
    if (i : Int) = p.me then
      process.sendLoop mt r p rest
    else
      let m : message :=
        { msgType := mt, time := p.clock.getTime, senderID := p.me, request := r }
      let res := process.sendLoop mt r { p with clock := p.clock.tick } rest
      (res.1, { dest := i, msg := m } :: res.2)

/-- The Go method `process.messaging(mt, r)`: returns the process after the
loop and the messages sent, in sending order. -/
def process.messaging (p : process) (mt : msgType) (r : Mutual.request) : process × List sending :=
  process.sendLoop mt r p (List.range p.nchans)

/-- The Go method `process.append(r)`. -/
def process.append (p : process) (r : Mutual.request) : process :=
  { p with requestQueue := p.requestQueue ++ [r] }

/-- The Go method `process.delete()`: exchange the first and the last element,
then cut the last position off.  On an empty queue the index expressions panic
before anything is written. -/
def process.delete (p : process) : Outcome process :=
  match p.requestQueue with
  | [] => .panic .indexOutOfRange p
  | h :: t =>
    let q := h :: t
    let last := q.length - 1
    let swapped := (q.set 0 (q.getD last h)).set last h
    .ok { p with requestQueue := swapped.take last }

/-- The `for i, t := range p.receiveTime` loop of `updateMinReceiveTime`, from
index `i` on, with running minimum `m`. -/
def minLoop (me : Int) : Nat → List Int → Int → Int
  | _, [], m => m
  | i, t :: ts, m => minLoop me (i + 1) ts (if (i : Int) = me then m else min m t)

/-- The Go method `process.updateMinReceiveTime()`.  Go's `%` truncates toward
zero (`Int.tmod`); a zero divisor and an index outside the slice panic. -/
def process.updateMinReceiveTime (p : process) : Outcome process :=
  if p.nchans = 0 then
    .panic .divideByZero p
  else
    let idx := Int.tmod (p.me + 1) (p.nchans : Int)
    if idx < 0 ∨ (p.receiveTime.length : Int) ≤ idx then
      .panic .indexOutOfRange p
    else
      let minTime := p.receiveTime.getD idx.toNat 0
      .ok { p with minReceiveTime := minLoop p.me 0 p.receiveTime minTime }

/-- The body of `process.receiveLoop` for one received message `msg`. -/
def process.receive (p : process) (msg : message) : Outcome process :=
  let p1 := { p with clock := p.clock.update msg.time }
  if msg.senderID < 0 ∨ (p1.receiveTime.length : Int) ≤ msg.senderID then
    .panic .indexOutOfRange p1
  else
    let p2 := { p1 with receiveTime := p1.receiveTime.set msg.senderID.toNat msg.time }
    match p2.updateMinReceiveTime with
    | .panic why p3 => .panic why p3
    | .ok p3 =>
      match msg.msgType with
      | .requestResource => .ok (p3.append msg.request)
      | .releaseResource => p3.delete
      | .acknowledgment => .ok p3

/-- The condition tested in `process.occupyLoop`: the queue is not empty, its
first request is the process's own, and that request's time is below
`minReceiveTime`. -/
def process.grantCheck (p : process) : Bool :=
  match p.requestQueue with
  | [] => false
  | h :: _ => h.process = p.me && h.time < p.minReceiveTime

/-- What a method of a process leaves behind: the process, the shared guard
`rsc` and the messages it sent. -/
structure Effect where
  proc : process
  rsc : resource
  sent : List sending
  deriving DecidableEq, Repr

/-- The Go method `process.request()`.  It does not panic. -/
def process.request (p : process) : process × List sending :=
  let r : Mutual.request := { time := p.clock.getTime, process := p.me }
  let p1 := p.append r
  let p2 := { p1 with clock := p1.clock.tick }
  p2.messaging .requestResource r

/-- The Go method `process.release()` run against the guard `rsc`. -/
def process.release (p : process) (rsc : resource) : Outcome Effect :=
  match p.requestQueue with
  | [] => .panic .indexOutOfRange { proc := p, rsc := rsc, sent := [] }
  | r :: _ =>
    match rsc.release p.me with
    | .panic why rsc1 => .panic why { proc := p, rsc := rsc1, sent := [] }
    | .ok rsc1 =>
      match p.delete with
      | .panic why p1 => .panic why { proc := p1, rsc := rsc1, sent := [] }
      | .ok p1 =>
        let p2 := { p1 with clock := p1.clock.tick }
        let res := p2.messaging .releaseResource r
        .ok { proc := res.1, rsc := rsc1, sent := res.2 }

/-- The Go method `process.occupy()` once the lock `occupying` has been
acquired: the guard is taken for `p.me`.  The release that the spawned
goroutine performs later is a step of its own. -/
def process.occupy (p : process) (rsc : resource) : Outcome (process × resource) :=
  let p1 := { p with occupying := true }
  match rsc.occupy p.me with
  | .panic why rsc1 => .panic why (p1, rsc1)
  | .ok rsc1 => .ok (p1, rsc1)

/-- The body of `process.occupyLoop` after a signal: when the grant condition
holds the process occupies the resource and its clock ticks. -/
def process.occupyLoop (p : process) (rsc : resource) : Outcome (process × resource) :=
  if p.grantCheck then
    match p.occupy rsc with
    | .panic why s => .panic why s
    | .ok s => .ok ({ s.1 with clock := s.1.clock.tick }, s.2)
  else
    .ok (p, rsc)

/-! ## Message rendering (message_test.go) -/

/-- Modelled from the spec: the message type built by `newMessage2` is declared
in a file that is not among the sources.  `message_test.go` builds it from a
kind, a time, a sender, a receiver and a timestamp, and assigns its field
`msgType`. -/
structure message2 where
  msgType : msgType
  time : Int
  senderID : Int
  receiverID : Int
  timestamp : timestamp
  deriving DecidableEq, Repr

/-- Modelled from the spec: the constructor `newMessage2(kind, time, from, to,
timestamp)` called by `message_test.go`. -/
def newMessage2 (mt : msgType) (time senderID receiverID : Int) (ts : timestamp) : message2 :=
  { msgType := mt, time := time, senderID := senderID, receiverID := receiverID,
    timestamp := ts }

/-- Modelled from the spec: the names of the three kinds as `message_test.go`
expects them in the rendering of a message. -/
def msgType.String : msgType → String
  | .requestResource => "申请资源"
  | .releaseResource => "释放资源"
  | .acknowledgment => "确认收到"

/-- Modelled from the spec: the rendering of a timestamp, `<T0:P0>` in
`message_test.go`. -/
def timestamp.String (ts : timestamp) : String :=
  "<T" ++ toString ts.time ++ ":P" ++ toString ts.process ++ ">"

/-- Modelled from the spec: the method `String()` of a message; its source is
not available, `message_test.go` expects
`{申请资源, Time:0, From:0, To:-1, <T0:P0>}` and the same text with the two
other kind names. -/
def message2.String (m : message2) : String :=
  "\x7b" ++ m.msgType.String ++ ", Time:" ++ toString m.time ++ ", From:"
    ++ toString m.senderID ++ ", To:" ++ toString m.receiverID ++ ", "
    ++ m.timestamp.String ++ "\x7d"

/-! ## The system of processes -/

/-- The processes of a run, the channel `chans[i]` read by process `i` (oldest
message first) and the shared guard `rsc`. -/
structure System where
  procs : List process
  chans : List (List message)
  rsc : resource
  deriving DecidableEq, Repr

/-- A system of `n` processes built by `newProcess`, with empty channels and a
guard built by `newResource`. -/
def startSystem (n : Nat) : System :=
  { procs := (List.range n).map (fun i => newProcess (i : Int) n)
    chans := List.replicate n []
    rsc := newResource }

/-- A system of `n` processes as `startSystem` builds it, after the owner of
the guard has called `rsc.occupieds.Add(grants)`; that call is not among the
sources, so the number of releases the run is to see is a parameter. -/
def startSystemWith (n grants : Nat) : System :=
  { startSystem n with rsc := { newResource with occupieds := (grants : Int) } }

/-- Put the messages sent by a method on their channels, in sending order. -/
def post (chans : List (List message)) : List sending → List (List message)
  | [] => chans
  | s :: rest => post (chans.set s.dest (chans.getD s.dest [] ++ [s.msg])) rest

/-- The steps of a system. -/
inductive Action where
  /-- Process `i` calls `request()`. -/
  | request (i : Nat)
  /-- The message at position `k` of `chans[i]` is received by process `i`. -/
  | deliver (i k : Nat)
  /-- Process `i` runs the body of `occupyLoop`. -/
  | check (i : Nat)
  /-- The goroutine started by `occupy()` of process `i` calls `release()` and
  unlocks `occupying`. -/
  | release (i : Nat)
  deriving DecidableEq, Repr

/-- One step.  `none` means that the step cannot be taken: there is no such
process or message, the message would overtake an older one of the same
sender, the grant is blocked on the lock `occupying`, or the process is not
holding.  A panic ends the run. -/
def System.step (s : System) : Action → Option (Outcome System)
  | .request i =>
    match s.procs[i]? with
    | none => none
    | some p =>
      let res := p.request
      some (.ok { s with procs := s.procs.set i res.1, chans := post s.chans res.2 })
  | .deliver i k =>
    match s.procs[i]?, (s.chans.getD i [])[k]? with
    | some p, some m =>
      let inbox := s.chans.getD i []
      if (inbox.take k).all (fun m0 => decide (m0.senderID ≠ m.senderID)) then
        let s1 := { s with chans := s.chans.set i (inbox.eraseIdx k) }
        match p.receive m with
        | .ok p1 => some (.ok { s1 with procs := s.procs.set i p1 })
        | .panic why p1 => some (.panic why { s1 with procs := s.procs.set i p1 })
      else
        none
    | _, _ => none
  | .check i =>
    match s.procs[i]? with
    | none => none
    | some p =>
      if p.grantCheck && p.occupying then
        none
      else
        match p.occupyLoop s.rsc with
        | .ok r => some (.ok { s with procs := s.procs.set i r.1, rsc := r.2 })
        | .panic why r => some (.panic why { s with procs := s.procs.set i r.1, rsc := r.2 })
  | .release i =>
    match s.procs[i]? with
    | none => none
    | some p =>
      if p.occupying then
        match p.release s.rsc with
        | .ok e =>
          some (.ok { procs := s.procs.set i { e.proc with occupying := false }
                      chans := post s.chans e.sent
                      rsc := e.rsc })
        | .panic why e =>
          some (.panic why { s with procs := s.procs.set i e.proc, rsc := e.rsc })
      else
        none

/-- Run a schedule from `s`; the run stops at the first panic. -/
def System.run (s : System) : List Action → Option (Outcome System)
  | [] => some (.ok s)
  | a :: rest =>
    match s.step a with
    | none => none
    | some (.ok s1) => System.run s1 rest
    | some (.panic why s1) => some (.panic why s1)

/-! ## Vocabulary of the properties -/

/-- Some `release2` of `a` inside `mid` returns normally, where `mid` is the
stretch of calls that follows `pre` and the call `occupy2 a` on a fresh
guard. -/
def ReleasedBetween (pre : List GuardCall) (a : timestamp) (n : Int)
    (mid : List GuardCall) : Prop :=
  ∃ mid1 mid2 c, mid = mid1 ++ GuardCall.release2 a c :: mid2 ∧
    succeedsAfter (pre ++ GuardCall.occupy2 a n :: mid1) (GuardCall.release2 a c) = true

/-- Modelled from the spec: the total order on requests, "time first, then
process id".  `process.go` itself never compares two requests. -/
def request.before (a b : request) : Bool :=
  a.time < b.time || (a.time = b.time && a.process < b.process)

/-- The request `r` is an entry of the queue `q` and no entry of `q` comes
before it. -/
def isQueueMin (q : List request) (r : request) : Bool :=
  q.contains r && q.all (fun x => !x.before r)

/-- Two processes ask for the resource at the same time and each receives the
request of the other after having queued its own. -/
def raceSchedule : List Action :=
  [.request 0, .request 1, .deliver 0 0, .check 0, .deliver 1 0]

/-- Process 0 is granted the resource and releases it while processes 1 and 2
are asking; process 1 then receives the release. -/
def passedOverSchedule : List Action :=
  [.request 0, .deliver 1 0, .request 1, .deliver 2 0, .deliver 2 0, .request 2,
   .deliver 1 0, .deliver 0 0, .deliver 0 0, .check 0, .release 0, .deliver 1 0]

/-- Process 1 at the end of `passedOverSchedule`. -/
def passedOver : process :=
  { me := 1
    clock := { time := 10 }
    nchans := 3
    requestQueue := [{ time := 5, process := 2 }, { time := 2, process := 1 }]
    sentTime := [0, 0, 0]
    receiveTime := [9, 0, 7]
    minReceiveTime := 7
    occupying := false }

/-- Process 2 of 3 with the requests `<T3:P2>` and `<T3:P1>` queued in this
order and later messages received from both peers. -/
def tieLoser : process :=
  { me := 2
    clock := { time := 6 }
    nchans := 3
    requestQueue := [{ time := 3, process := 2 }, { time := 3, process := 1 }]
    sentTime := [0, 0, 0]
    receiveTime := [4, 4, 0]
    minReceiveTime := 4
    occupying := false }

/-- The states of process `me` with `n` channels that are reached from
`newProcess` by calls of `request()`, by the receive path and by calls of
`release()` that return normally; the messages received and the guard met by
`release()` are arbitrary. -/
inductive Reachable (me : Int) (n : Nat) : process → Prop where
  | start : Reachable me n (newProcess me n)
  | request {p : process} : Reachable me n p → Reachable me n p.request.1
  | receive {p p1 : process} (msg : message) :
      Reachable me n p → p.receive msg = .ok p1 → Reachable me n p1
  | release {p : process} (rsc : resource) {e : Effect} :
      Reachable me n p → p.release rsc = .ok e → Reachable me n e.proc

/-- The receive-time vector has one entry per channel and `minReceiveTime` is
at most the entry of every peer. -/
def RecvInv (me : Int) (n : Nat) (p : process) : Prop :=
  p.me = me ∧ p.receiveTime.length = n ∧
    ∀ (j : Nat) (t : Int), (j : Int) ≠ me → p.receiveTime[j]? = some t → p.minReceiveTime ≤ t

/-- The request of process 1, made at time 0, as it reaches process 0. -/
def peerRequest : message :=
  { msgType := .requestResource, time := 1, senderID := 1,
    request := { time := 0, process := 1 } }

/-- Process 0 of 2 after its own `request()` and the receipt of `peerRequest`. -/
def firstGrant : process :=
  ((newProcess 0 2).request.1.receive peerRequest).state

/-- A `releaseResource` message of process 1 for its request `<T1:P1>`. -/
def peerRelease : message :=
  { msgType := .releaseResource, time := 5, senderID := 1,
    request := { time := 1, process := 1 } }

/-- At most one entry per process identifier. -/
def onePerProcess (q : List request) : Prop :=
  (q.map (fun r => r.process)).Nodup

instance (q : List request) : Decidable (onePerProcess q) := by
  unfold onePerProcess
  infer_instance

/-- Process 0 of 2 right after its first `request()`: its queue holds
`<T0:P0>` only. -/
def ownQueued : process := (newProcess 0 2).request.1

/-- Process 0 of 2 as built by `newProcess`: its queue is empty. -/
def idle : process := newProcess 0 2

/-- The channel indices of the peers of `me` among `n` channels, in increasing
order. -/
def peerIndices (me : Int) (n : Nat) : List Nat :=
  (List.range n).filter (fun i => decide ((i : Int) ≠ me))

/-- Process 1 of 3 with clock value 7 and an empty queue. -/
def middle : process :=
  { newProcess 1 3 with clock := { time := 7 } }

/-- The value `m` is the minimum of the entries `rt[j]` over the peers
`j ≠ me`: it is at most each of them and it is one of them. -/
def isPeerMin (me : Int) (rt : List Int) (m : Int) : Prop :=
  (∀ (j : Nat) (t : Int), (j : Int) ≠ me → rt[j]? = some t → m ≤ t) ∧
    ∃ j : Nat, (j : Int) ≠ me ∧ rt[j]? = some m

/-- An `acknowledgment` message of process 2 stamped 12; the request it
carries is not read by the receive path. -/
def peerAck : message :=
  { msgType := .acknowledgment, time := 12, senderID := 2,
    request := { time := 0, process := 2 } }

/-- Process 1 of 3, holding the resource, with its own request `<T5:P1>` as
the first entry of its queue and the requests of its peers behind it. -/
def holderFirst : process :=
  { passedOver with
    requestQueue :=
      [{ time := 5, process := 1 }, { time := 6, process := 0 }, { time := 8, process := 2 }]
    occupying := true }

/-- The guard states reached from `newResource` by calls of `occupy2` and
`release2` that return normally and whose timestamps differ from `NOBODY2`. -/
inductive GuardReach : resource → Prop where
  | start : GuardReach newResource
  | occupy2 {r r1 : resource} (ts : timestamp) (now : Int) :
      GuardReach r → ts ≠ NOBODY2 → r.occupy2 ts now = .ok r1 → GuardReach r1
  | release2 {r r1 : resource} (ts : timestamp) (now : Int) :
      GuardReach r → ts ≠ NOBODY2 → r.release2 ts now = .ok r1 → GuardReach r1

/-- The guard taken by `<T0:P0>` at wall-clock reading 10. -/
def takenOnce : resource :=
  guardAfter newResource [GuardCall.occupy2 { time := 0, process := 0 } 10]

/-- A guard whose log holds three occupations in increasing order. -/
def orderedLog : resource :=
  { newResource with
    timestamps := [{ time := 0, process := 0 }, { time := 0, process := 1 },
                   { time := 2, process := 0 }]
    times := [10, 20, 30, 40, 50, 60] }

/-- A guard whose log holds the occupation `<T0:P1>` twice, with a larger one
in between. -/
def repeatedLog : resource :=
  { newResource with
    timestamps := [{ time := 0, process := 1 }, { time := 2, process := 0 },
                   { time := 0, process := 1 }]
    times := [10, 20, 30, 40, 50, 60] }

/-- After `raceSchedule`, process 0 releases the resource and process 1 is
granted it while the release message of process 0 is still on its way. -/
def handOverSchedule : List Action :=
  raceSchedule ++ [.release 0, .check 1]

/-- After `handOverSchedule`, process 1 receives the release of process 0 and
calls `request()` once more. -/
def staleHolderSchedule : List Action :=
  handOverSchedule ++ [.deliver 1 0, .request 1]

/-! ## Properties of the guard -/

theorem guardAfter_append (r : resource) (xs ys : List GuardCall) :
    guardAfter r (xs ++ ys) = guardAfter (guardAfter r xs) ys := by
  induction xs generalizing r with
  | nil => rfl
  | cons c cs ih => simp [guardAfter, ih]

theorem occupy2_held (r : resource) (ts : timestamp) (now : Int)
    (h : r.occupiedBy2 ≠ NOBODY2) : r.occupy2 ts now = .panic .alreadyOccupied r := by
  simp [resource.occupy2, h]

theorem occupy2_free (r : resource) (ts : timestamp) (now : Int)
    (h : r.occupiedBy2 = NOBODY2) :
    r.occupy2 ts now =
      .ok { r with occupiedBy2 := ts, timestamps := r.timestamps ++ [ts],
                   times := r.times ++ [now] } := by
  simp [resource.occupy2, h]

theorem release2_other (r : resource) (ts : timestamp) (now : Int)
    (h : r.occupiedBy2 ≠ ts) : r.release2 ts now = .panic .notHolder r := by
  simp [resource.release2, h]

theorem release2_holder (r : resource) (ts : timestamp) (now : Int)
    (h : r.occupiedBy2 = ts) :
    r.release2 ts now = .ok { r with occupiedBy2 := NOBODY2, times := r.times ++ [now] } := by
  simp [resource.release2, h]

/-- While no `release2` of the holder `a` returns normally, the guard stays
held by `a`. -/
theorem holder_kept (a : timestamp) (ha : a ≠ NOBODY2) :
    ∀ (mid : List GuardCall) (r : resource), r.occupiedBy2 = a →
      (∀ mid1 mid2 c, mid = mid1 ++ GuardCall.release2 a c :: mid2 →
        (GuardCall.apply (guardAfter r mid1) (GuardCall.release2 a c)).isOk = false) →
      (guardAfter r mid).occupiedBy2 = a := by
  intro mid
  induction mid with
  | nil => intro r hr _; simpa [guardAfter] using hr
  | cons c cs ih =>
    intro r hr hno
    have hheld : r.occupiedBy2 ≠ NOBODY2 := by rw [hr]; exact ha
    have hstay : (GuardCall.apply r c).state = r := by
      cases c with
      | occupy2 x k => simp [GuardCall.apply, occupy2_held r x k hheld, Outcome.state]
      | release2 x k =>
        by_cases hx : x = a
        · subst hx
          have h0 := hno [] cs k rfl
          simp [guardAfter, GuardCall.apply, release2_holder r x k hr, Outcome.isOk] at h0
        · have hne : r.occupiedBy2 ≠ x := by rw [hr]; exact fun h => hx h.symm
          simp [GuardCall.apply, release2_other r x k hne, Outcome.state]
    have hstep : guardAfter r (c :: cs) = guardAfter r cs := by
      simp [guardAfter, hstay]
    rw [hstep]
    apply ih r hr
    intro mid1 mid2 k hcs
    have h1 := hno (c :: mid1) mid2 k (by simp [hcs])
    simpa [guardAfter, hstay] using h1

/-- C1, as amended: on a guard built by `newResource`, if `occupy2 a` returns
normally with `a` different from `NOBODY2`, then a later `occupy2 b` with
`b ≠ a` returns normally only if some `release2 a` issued between the two
calls returned normally. -/
theorem occupy2_exclusive (pre mid : List GuardCall) (a b : timestamp) (n m : Int)
    (_hab : a ≠ b) (ha : a ≠ NOBODY2)
    (h1 : succeedsAfter pre (GuardCall.occupy2 a n) = true)
    (h2 : succeedsAfter (pre ++ GuardCall.occupy2 a n :: mid) (GuardCall.occupy2 b m) = true) :
    ReleasedBetween pre a n mid := by
  by_contra hno
  have hfree : (guardAfter newResource pre).occupiedBy2 = NOBODY2 := by
    by_contra hheld
    simp [succeedsAfter, GuardCall.apply, occupy2_held _ a n hheld, Outcome.isOk] at h1
  have hstart : (guardAfter newResource (pre ++ [GuardCall.occupy2 a n])).occupiedBy2 = a := by
    simp [guardAfter_append, guardAfter, GuardCall.apply, occupy2_free _ a n hfree,
      Outcome.state]
  have hkeep := holder_kept a ha mid (guardAfter newResource (pre ++ [GuardCall.occupy2 a n]))
    hstart (by
      intro mid1 mid2 c hmid
      by_contra hok
      apply hno
      refine ⟨mid1, mid2, c, hmid, ?_⟩
      have hsplit : pre ++ GuardCall.occupy2 a n :: mid1
          = (pre ++ [GuardCall.occupy2 a n]) ++ mid1 := by simp
      rw [succeedsAfter, hsplit, guardAfter_append]
      simpa using hok)
  have hsplit : pre ++ GuardCall.occupy2 a n :: mid
      = (pre ++ [GuardCall.occupy2 a n]) ++ mid := by simp
  rw [succeedsAfter, hsplit, guardAfter_append] at h2
  have hheld : (guardAfter (guardAfter newResource (pre ++ [GuardCall.occupy2 a n])) mid).occupiedBy2
      ≠ NOBODY2 := by rw [hkeep]; exact ha
  simp [GuardCall.apply, occupy2_held _ b m hheld, Outcome.isOk] at h2

/-- Witness for C1 as amended: `occupy2 <T0:P0>`, `release2 <T0:P0>`,
`occupy2 <T1:P1>` on a fresh guard. -/
theorem occupy2_exclusive_witness :
    ReleasedBetween [] { time := 0, process := 0 } 10
      [GuardCall.release2 { time := 0, process := 0 } 20] :=
  occupy2_exclusive [] [GuardCall.release2 { time := 0, process := 0 } 20]
    { time := 0, process := 0 } { time := 1, process := 1 } 10 30
    (by decide) (by decide) (by decide) (by decide)

/-- C1, as stated, fails: after `occupy2 NOBODY2` the guard still reads as
free, so `occupy2 <T0:P0>` returns normally as well although the two
timestamps differ and no release lies between the two calls. -/
theorem occupy2_exclusive_counterexample :
    ¬ (∀ (pre mid : List GuardCall) (a b : timestamp) (n m : Int), a ≠ b →
        succeedsAfter pre (GuardCall.occupy2 a n) = true →
        succeedsAfter (pre ++ GuardCall.occupy2 a n :: mid) (GuardCall.occupy2 b m) = true →
        ReleasedBetween pre a n mid) := by
  intro h
  have hrel := h [] [] NOBODY2 { time := 0, process := 0 } 10 20
    (by decide) (by decide) (by decide)
  obtain ⟨mid1, mid2, c, hmid, _⟩ := hrel
  simp at hmid

/-- C6, as amended: `occupy2(ts)` panics exactly when the guard is already held
(`occupiedBy2 ≠ NOBODY2`), by `ts` itself or by another timestamp, and then
writes nothing; when the guard is free it returns normally and leaves
`occupiedBy2 = ts`. -/
theorem occupy2_spec (r : resource) (ts : timestamp) (now : Int) :
    ((r.occupy2 ts now).isOk = false ↔ r.occupiedBy2 ≠ NOBODY2) ∧
    (r.occupiedBy2 ≠ NOBODY2 → r.occupy2 ts now = .panic .alreadyOccupied r) ∧
    (r.occupiedBy2 = NOBODY2 →
      ∃ r1, r.occupy2 ts now = .ok r1 ∧ r1.occupiedBy2 = ts) := by
  refine ⟨?_, fun h => occupy2_held r ts now h, fun h => ?_⟩
  · by_cases h : r.occupiedBy2 = NOBODY2
    · simp [occupy2_free r ts now h, Outcome.isOk, h]
    · simp [occupy2_held r ts now h, Outcome.isOk, h]
  · exact ⟨_, occupy2_free r ts now h, rfl⟩

/-- Witness for C6 as amended: a fresh guard is taken by `<T0:P0>`, and a
second `occupy2` on the guard so obtained panics. -/
theorem occupy2_spec_witness :
    (∃ r1, newResource.occupy2 { time := 0, process := 0 } 10 = .ok r1 ∧
      r1.occupiedBy2 = { time := 0, process := 0 }) ∧
    ((guardAfter newResource [GuardCall.occupy2 { time := 0, process := 0 } 10]).occupy2
      { time := 1, process := 1 } 20).isOk = false :=
  ⟨(occupy2_spec newResource { time := 0, process := 0 } 10).2.2 (by decide),
   (occupy2_spec (guardAfter newResource [GuardCall.occupy2 { time := 0, process := 0 } 10])
      { time := 1, process := 1 } 20).1.2 (by decide)⟩

/-- C6, as stated, fails: a guard held by `<T0:P0>` makes `occupy2(<T0:P0>)`
panic, although the holder is not a different timestamp. -/
theorem occupy2_spec_counterexample :
    ¬ (∀ (r : resource) (ts : timestamp) (now : Int),
        ((r.occupy2 ts now).isOk = false ↔
          (r.occupiedBy2 ≠ NOBODY2 ∧ r.occupiedBy2 ≠ ts))) := by
  intro h
  have h1 := (h (guardAfter newResource [GuardCall.occupy2 { time := 0, process := 0 } 10])
    { time := 0, process := 0 } 20).1 (by decide)
  exact h1.2 (by decide)

/-- C7: `release2(ts)` panics exactly when the current holder is not `ts`, and
then writes nothing; otherwise it returns normally and leaves
`occupiedBy2 = NOBODY2`. -/
theorem release2_spec (r : resource) (ts : timestamp) (now : Int) :
    ((r.release2 ts now).isOk = false ↔ r.occupiedBy2 ≠ ts) ∧
    (r.occupiedBy2 ≠ ts → r.release2 ts now = .panic .notHolder r) ∧
    (r.occupiedBy2 = ts →
      ∃ r1, r.release2 ts now = .ok r1 ∧ r1.occupiedBy2 = NOBODY2) := by
  refine ⟨?_, fun h => release2_other r ts now h, fun h => ?_⟩
  · by_cases h : r.occupiedBy2 = ts
    · simp [release2_holder r ts now h, Outcome.isOk, h]
    · simp [release2_other r ts now h, Outcome.isOk, h]
  · exact ⟨_, release2_holder r ts now h, rfl⟩

/-- Witness for C7: the guard taken by `<T0:P0>` is released by `<T0:P0>`, and
a release by `<T1:P1>` panics. -/
theorem release2_spec_witness :
    (∃ r1, (guardAfter newResource [GuardCall.occupy2 { time := 0, process := 0 } 10]).release2
        { time := 0, process := 0 } 20 = .ok r1 ∧ r1.occupiedBy2 = NOBODY2) ∧
    ((guardAfter newResource [GuardCall.occupy2 { time := 0, process := 0 } 10]).release2
      { time := 1, process := 1 } 20).isOk = false :=
  ⟨(release2_spec (guardAfter newResource [GuardCall.occupy2 { time := 0, process := 0 } 10])
      { time := 0, process := 0 } 20).2.2 (by decide),
   (release2_spec (guardAfter newResource [GuardCall.occupy2 { time := 0, process := 0 } 10])
      { time := 1, process := 1 } 20).1.2 (by decide)⟩

/-! ## Properties of the process agent -/

/-- C2 fails on the code: in a system of two processes, after both have called
`request()` and each has received the request of the other, process 0 is
granted the resource, and the grant check of process 1 succeeds as well: its
call of the guard panics because process 0 is the holder. -/
theorem guard_assertion_fires :
    ∃ s5 s6, (startSystem 2).run raceSchedule = some (.ok s5) ∧
      s5.rsc.occupiedBy = 0 ∧
      s5.step (.check 1) = some (.panic .alreadyOccupied s6) :=
  ⟨_, _, rfl, rfl, rfl⟩

theorem grantCheck_cons (p : process) (h : request) (t : List request)
    (hq : p.requestQueue = h :: t) :
    p.grantCheck = (decide (h.process = p.me) && decide (h.time < p.minReceiveTime)) := by
  simp [process.grantCheck, hq]

/-- C3 fails on the code: at the end of `raceSchedule` the grant check of
process 1 succeeds although the request `<T0:P0>` of process 0 is in its queue
and comes before its own `<T0:P1>`, so the entry of process 1 is not the
minimum of the queue.  Likewise, with `<T3:P2>` queued before `<T3:P1>`, the
check succeeds for process 2 while the request of process 1 is in its queue. -/
theorem grantCheck_not_min :
    (∃ s p, (startSystem 2).run raceSchedule = some (.ok s) ∧
      s.procs[1]? = some p ∧
      p.requestQueue = [{ time := 0, process := 1 }, { time := 0, process := 0 }] ∧
      p.grantCheck = true ∧
      request.before { time := 0, process := 0 } { time := 0, process := 1 } = true ∧
      isQueueMin p.requestQueue { time := 0, process := 1 } = false) ∧
    (tieLoser.grantCheck = true ∧
      ({ time := 3, process := 1 } : request) ∈ tieLoser.requestQueue ∧
      request.before { time := 3, process := 1 } { time := 3, process := 2 } = true ∧
      isQueueMin tieLoser.requestQueue { time := 3, process := 2 } = false) :=
  ⟨⟨_, _, rfl, rfl, rfl, rfl, rfl, rfl⟩, by decide, by decide, by decide, by decide⟩

/-- C4 fails on the code: at the end of `passedOverSchedule` the guard is free
and process 1 has its own request `<T2:P1>` in the queue, it is the minimum of
the queue and `minReceiveTime = 7` exceeds its time; yet the grant check fails,
because the first entry of the queue is `<T5:P2>`, and the body of `occupyLoop`
leaves the process and the guard as they are. -/
theorem minimum_not_granted :
    ∃ s, (startSystemWith 3 1).run passedOverSchedule = some (.ok s) ∧
      s.procs[1]? = some passedOver ∧
      s.rsc.occupiedBy = NOBODY ∧
      ({ time := 2, process := 1 } : request) ∈ passedOver.requestQueue ∧
      isQueueMin passedOver.requestQueue { time := 2, process := 1 } = true ∧
      (2 : Int) < passedOver.minReceiveTime ∧
      passedOver.grantCheck = false ∧
      passedOver.occupyLoop s.rsc = .ok (passedOver, s.rsc) :=
  ⟨_, rfl, rfl, rfl, by decide, by decide, by decide, by decide, rfl⟩

/-! ### Fields left alone by the methods -/

theorem sendLoop_fields (mt : msgType) (r : request) :
    ∀ (is : List Nat) (p : process),
      (process.sendLoop mt r p is).1.me = p.me ∧
      (process.sendLoop mt r p is).1.nchans = p.nchans ∧
      (process.sendLoop mt r p is).1.requestQueue = p.requestQueue ∧
      (process.sendLoop mt r p is).1.receiveTime = p.receiveTime ∧
      (process.sendLoop mt r p is).1.minReceiveTime = p.minReceiveTime ∧
      (process.sendLoop mt r p is).1.occupying = p.occupying := by
  intro is
  induction is with
  | nil => intro p; simp [process.sendLoop]
  | cons i rest ih =>
    intro p
    by_cases hi : (i : Int) = p.me
    · simpa [process.sendLoop, hi] using ih p
    · simpa [process.sendLoop, hi] using ih { p with clock := p.clock.tick }

theorem delete_fields (p p1 : process) (h : p.delete = .ok p1) :
    p1.me = p.me ∧ p1.nchans = p.nchans ∧ p1.receiveTime = p.receiveTime ∧
      p1.minReceiveTime = p.minReceiveTime ∧ p1.clock = p.clock ∧
      p1.occupying = p.occupying := by
  unfold process.delete at h
  split at h
  · simp at h
  · simp only [Outcome.ok.injEq] at h
    subst h
    simp

theorem minLoop_le_init (me : Int) :
    ∀ (ts : List Int) (i : Nat) (m : Int), minLoop me i ts m ≤ m := by
  intro ts
  induction ts with
  | nil => intro i m; simp [minLoop]
  | cons t0 ts ih =>
    intro i m
    simp only [minLoop]
    split
    · exact ih _ _
    · exact le_trans (ih _ _) (min_le_left _ _)

theorem minLoop_le_get (me : Int) :
    ∀ (ts : List Int) (i : Nat) (m : Int) (k : Nat) (t : Int),
      ts[k]? = some t → ((i + k : Nat) : Int) ≠ me → minLoop me i ts m ≤ t := by
  intro ts
  induction ts with
  | nil => intro i m k t h; simp at h
  | cons t0 ts ih =>
    intro i m k t h hk
    cases k with
    | zero =>
      simp only [List.getElem?_cons_zero, Option.some.injEq] at h
      subst h
      have hi : (i : Int) ≠ me := by simpa using hk
      simp only [minLoop, hi, if_false]
      exact le_trans (minLoop_le_init me ts _ _) (min_le_right _ _)
    | succ k =>
      simp only [List.getElem?_cons_succ] at h
      have hk1 : ((i + 1 + k : Nat) : Int) ≠ me := by
        have he : i + 1 + k = i + (k + 1) := by omega
        rw [he]; exact hk
      simp only [minLoop]
      exact ih _ _ k t h hk1

theorem updateMin_ok (p p3 : process) (h : p.updateMinReceiveTime = .ok p3) :
    ∃ m0, p3 = { p with minReceiveTime := minLoop p.me 0 p.receiveTime m0 } := by
  unfold process.updateMinReceiveTime at h
  split at h
  · simp at h
  · simp only at h
    split at h
    · simp at h
    · simp only [Outcome.ok.injEq] at h
      exact ⟨_, h.symm⟩

/-- What a normal return of the receive path went through: the index of the
sender was valid, `updateMinReceiveTime` returned normally with `p3`, and the
queue operation selected by the message kind produced `p1`. -/
theorem receive_ok (p p1 : process) (msg : message) (h : p.receive msg = .ok p1) :
    (0 ≤ msg.senderID ∧ msg.senderID < (p.receiveTime.length : Int)) ∧
    ∃ p3, ({ p with clock := p.clock.update msg.time,
                    receiveTime := p.receiveTime.set msg.senderID.toNat msg.time }
            : process).updateMinReceiveTime = .ok p3 ∧
      ((msg.msgType = .requestResource ∧ p1 = p3.append msg.request) ∨
       (msg.msgType = .releaseResource ∧ p3.delete = .ok p1) ∨
       (msg.msgType = .acknowledgment ∧ p1 = p3)) := by
  unfold process.receive at h
  simp only at h
  split at h
  · simp at h
  · rename_i hidx
    refine ⟨by omega, ?_⟩
    split at h
    · simp at h
    · rename_i p3 hupd
      refine ⟨p3, hupd, ?_⟩
      split at h
      · rename_i hk
        simp only [Outcome.ok.injEq] at h
        exact Or.inl ⟨hk, h.symm⟩
      · rename_i hk
        exact Or.inr (Or.inl ⟨hk, h⟩)
      · rename_i hk
        simp only [Outcome.ok.injEq] at h
        exact Or.inr (Or.inr ⟨hk, h.symm⟩)

theorem receive_fields (p p1 : process) (msg : message) (h : p.receive msg = .ok p1) :
    p1.me = p.me ∧ p1.nchans = p.nchans ∧
      p1.receiveTime = p.receiveTime.set msg.senderID.toNat msg.time ∧
      ∃ m0, p1.minReceiveTime = minLoop p.me 0 p1.receiveTime m0 := by
  obtain ⟨_, p3, hupd, hkind⟩ := receive_ok p p1 msg h
  obtain ⟨m0, hp3⟩ := updateMin_ok _ _ hupd
  rcases hkind with ⟨_, h1⟩ | ⟨_, h1⟩ | ⟨_, h1⟩
  · subst h1; subst hp3
    exact ⟨rfl, rfl, rfl, m0, rfl⟩
  · obtain ⟨h2, h3, h4, h5, _⟩ := delete_fields _ _ h1
    subst hp3
    rw [h2, h3, h4, h5]
    exact ⟨rfl, rfl, rfl, m0, rfl⟩
  · subst h1; subst hp3
    exact ⟨rfl, rfl, rfl, m0, rfl⟩

theorem request_fields (p : process) :
    p.request.1.me = p.me ∧ p.request.1.nchans = p.nchans ∧
      p.request.1.receiveTime = p.receiveTime ∧
      p.request.1.minReceiveTime = p.minReceiveTime := by
  obtain ⟨h1, h2, _, h4, h5, _⟩ := sendLoop_fields .requestResource
    { time := p.clock.getTime, process := p.me } (List.range
      ({ p.append { time := p.clock.getTime, process := p.me } with
          clock := (p.append { time := p.clock.getTime, process := p.me }).clock.tick }
        : process).nchans)
    { p.append { time := p.clock.getTime, process := p.me } with
      clock := (p.append { time := p.clock.getTime, process := p.me }).clock.tick }
  exact ⟨h1, h2, h4, h5⟩

/-- What a normal return of `release()` went through. -/
theorem release_ok (p : process) (rsc : resource) (e : Effect)
    (h : p.release rsc = .ok e) :
    ∃ r t rsc1 p1, p.requestQueue = r :: t ∧ rsc.release p.me = .ok rsc1 ∧
      p.delete = .ok p1 ∧
      e = { proc := (({ p1 with clock := p1.clock.tick } : process).messaging
                      .releaseResource r).1
            rsc := rsc1
            sent := (({ p1 with clock := p1.clock.tick } : process).messaging
                      .releaseResource r).2 } := by
  unfold process.release at h
  cases hq : p.requestQueue with
  | nil => simp [hq] at h
  | cons r t =>
    simp only [hq] at h
    cases hrel : rsc.release p.me with
    | panic why rsc1 => simp [hrel] at h
    | ok rsc1 =>
      simp only [hrel] at h
      cases hdel : p.delete with
      | panic why p1 => simp [hdel] at h
      | ok p1 =>
        simp only [hdel, Outcome.ok.injEq] at h
        exact ⟨r, t, rsc1, p1, rfl, rfl, rfl, h.symm⟩

theorem release_fields (p : process) (rsc : resource) (e : Effect)
    (h : p.release rsc = .ok e) :
    e.proc.me = p.me ∧ e.proc.nchans = p.nchans ∧ e.proc.receiveTime = p.receiveTime ∧
      e.proc.minReceiveTime = p.minReceiveTime := by
  obtain ⟨r, t, rsc1, p1, _, _, hdel, he⟩ := release_ok p rsc e h
  subst he
  obtain ⟨d1, d2, d3, d4, _, _⟩ := delete_fields _ _ hdel
  obtain ⟨h1, h2, _, h4, h5, _⟩ := sendLoop_fields .releaseResource r
    (List.range ({ p1 with clock := p1.clock.tick } : process).nchans)
    { p1 with clock := p1.clock.tick }
  simp only [process.messaging]
  rw [h1, h2, h4, h5]
  exact ⟨d1, d2, d3, d4⟩

/-- Every reachable state satisfies `RecvInv`. -/
theorem reachable_recvInv (me : Int) (n : Nat) (p : process) (hr : Reachable me n p) :
    RecvInv me n p := by
  induction hr with
  | start =>
    refine ⟨rfl, by simp [newProcess], ?_⟩
    intro j t _ hj
    have ht : t = 0 := by
      have hmem : t ∈ List.replicate n (0 : Int) := by
        simp only [newProcess] at hj
        exact List.getElem?_mem hj
      exact List.eq_of_mem_replicate hmem
    simp [newProcess, ht]
  | @request q _ ih =>
    obtain ⟨h1, _, h3, h4⟩ := request_fields q
    obtain ⟨i1, i2, i3⟩ := ih
    refine ⟨by rw [h1, i1], by rw [h3, i2], ?_⟩
    intro j t hj ht
    rw [h4]
    rw [h3] at ht
    exact i3 j t hj ht
  | @receive q q1 msg _ hrecv ih =>
    obtain ⟨h1, _, h3, m0, h4⟩ := receive_fields q q1 msg hrecv
    obtain ⟨i1, i2, _⟩ := ih
    refine ⟨by rw [h1, i1], by rw [h3, List.length_set, i2], ?_⟩
    intro j t hj ht
    rw [h4]
    apply minLoop_le_get q.me q1.receiveTime 0 m0 j t ht
    rw [i1]
    simpa using hj
  | @release q rsc e _ hrel ih =>
    obtain ⟨h1, _, h3, h4⟩ := release_fields q rsc e hrel
    obtain ⟨i1, i2, i3⟩ := ih
    refine ⟨by rw [h1, i1], by rw [h3, i2], ?_⟩
    intro j t hj ht
    rw [h4]
    rw [h3] at ht
    exact i3 j t hj ht

/-- C5: in every state of process `me` (of `n ≥ 2`, `0 ≤ me < n`) reachable from
`newProcess` by `request()`, receive-path and `release()` steps, if the grant
check succeeds then the first entry of the queue is the process's own request
and, for every peer `j ≠ me`, `receiveTime[j]` is strictly greater than the
time of that request. -/
theorem grant_after_all_peers (me : Int) (n : Nat) (p : process)
    (_hn : 2 ≤ n) (_hme : 0 ≤ me ∧ me < (n : Int))
    (hr : Reachable me n p) (hg : p.grantCheck = true) :
    ∃ h t, p.requestQueue = h :: t ∧ h.process = me ∧
      ∀ j : Nat, j < n → (j : Int) ≠ me →
        ∃ tj, p.receiveTime[j]? = some tj ∧ h.time < tj := by
  obtain ⟨i1, i2, i3⟩ := reachable_recvInv me n p hr
  cases hq : p.requestQueue with
  | nil => simp [process.grantCheck, hq] at hg
  | cons h t =>
    rw [grantCheck_cons p h t hq] at hg
    simp only [Bool.and_eq_true, decide_eq_true_eq] at hg
    refine ⟨h, t, rfl, by rw [hg.1, i1], ?_⟩
    intro j hjn hj
    have hlt : j < p.receiveTime.length := by rw [i2]; exact hjn
    refine ⟨p.receiveTime[j], List.getElem?_eq_getElem hlt, ?_⟩
    exact lt_of_lt_of_le hg.2 (i3 j _ hj (List.getElem?_eq_getElem hlt))

/-- Witness for C5: process 0 of 2 has called `request()` at time 0 and has
received the request message of process 1, stamped 1. -/
theorem grant_after_all_peers_witness :
    ∃ h t, firstGrant.requestQueue = h :: t ∧ h.process = 0 ∧
      ∀ j : Nat, j < 2 → (j : Int) ≠ 0 →
        ∃ tj, firstGrant.receiveTime[j]? = some tj ∧ h.time < tj :=
  grant_after_all_peers 0 2 firstGrant (by decide) (by decide)
    (Reachable.receive peerRequest (Reachable.request Reachable.start) rfl) (by decide)

/-! ### The queue operations -/

theorem delete_single (p : process) (h : request) (hq : p.requestQueue = [h]) :
    p.delete = .ok { p with requestQueue := [] } := by
  simp [process.delete, hq]

theorem delete_cons_snoc (p : process) (h l : request) (t : List request)
    (hq : p.requestQueue = h :: (t ++ [l])) :
    p.delete = .ok { p with requestQueue := l :: t } := by
  simp [process.delete, hq]

/-- On a queue `h :: t`, `delete()` returns normally and leaves the entries of
`t`, rearranged. -/
theorem delete_cons (p : process) (h : request) (t : List request)
    (hq : p.requestQueue = h :: t) :
    ∃ q1, p.delete = .ok { p with requestQueue := q1 } ∧ q1.Perm t := by
  rcases List.eq_nil_or_concat t with ht | ⟨t1, l, ht⟩
  · subst ht
    exact ⟨[], delete_single p h hq, List.Perm.refl _⟩
  · rw [List.concat_eq_append] at ht
    subst ht
    exact ⟨l :: t1, delete_cons_snoc p h l t1 hq, (List.perm_append_singleton l t1).symm⟩

theorem updateMin_wf (p : process) (hlen : p.receiveTime.length = p.nchans)
    (hme : 0 ≤ p.me ∧ p.me < (p.nchans : Int)) :
    ∃ m0, p.updateMinReceiveTime =
      .ok { p with minReceiveTime := minLoop p.me 0 p.receiveTime m0 } := by
  have hn : p.nchans ≠ 0 := by
    intro h0
    rw [h0] at hme
    omega
  have hpos : (0 : Int) < (p.nchans : Int) := by omega
  have h1 : 0 ≤ Int.tmod (p.me + 1) (p.nchans : Int) := Int.tmod_nonneg _ (by omega)
  have h2 : Int.tmod (p.me + 1) (p.nchans : Int) < (p.nchans : Int) :=
    Int.tmod_lt_of_pos _ hpos
  have hidx : ¬ (Int.tmod (p.me + 1) (p.nchans : Int) < 0 ∨
      (p.receiveTime.length : Int) ≤ Int.tmod (p.me + 1) (p.nchans : Int)) := by
    rw [hlen]
    omega
  refine ⟨p.receiveTime.getD (Int.tmod (p.me + 1) (p.nchans : Int)).toNat 0, ?_⟩
  unfold process.updateMinReceiveTime
  simp only [hn, if_false, hidx]

/-- C8 fails on the code: at the end of `handOverSchedule` the queue of
process 1 holds its own `<T0:P1>` and then `<T0:P0>`, and the next message on
its channel is the ReleaseResource of process 0 carrying `<T0:P0>`.  The
receive path removes `<T0:P1>` and keeps the entry `<T0:P0>` of the sender. -/
theorem release_removes_other_entry :
    ∃ s p m p1, (startSystemWith 2 1).run handOverSchedule = some (.ok s) ∧
      s.procs[1]? = some p ∧
      p.requestQueue = [{ time := 0, process := 1 }, { time := 0, process := 0 }] ∧
      (s.chans.getD 1 [])[0]? = some m ∧
      m.msgType = .releaseResource ∧ m.senderID = 0 ∧
      m.request = { time := 0, process := 0 } ∧
      p.receive m = .ok p1 ∧
      p1.requestQueue = [{ time := 0, process := 0 }] :=
  ⟨_, _, _, _, rfl, rfl, rfl, rfl, rfl, rfl, rfl, rfl, rfl⟩

theorem updateMin_queue (p : process) :
    p.updateMinReceiveTime.state.requestQueue = p.requestQueue := by
  unfold process.updateMinReceiveTime
  split
  · rfl
  · simp only
    split <;> rfl

/-- C9, as amended: on an empty request queue, processing a ReleaseResource
message of any sender in the receive path is a fatal failure, and the queue is
still empty when the panic is raised. -/
theorem receive_release_empty (p : process) (msg : message)
    (hk : msg.msgType = .releaseResource) (hq : p.requestQueue = []) :
    (p.receive msg).isOk = false ∧ (p.receive msg).state.requestQueue = [] := by
  unfold process.receive
  simp only
  split
  · exact ⟨rfl, hq⟩
  · split
    · rename_i p3 hupd
      have h3 := updateMin_queue
        { p with clock := p.clock.update msg.time,
                 receiveTime := p.receiveTime.set msg.senderID.toNat msg.time }
      rw [hupd] at h3
      exact ⟨rfl, by simpa [Outcome.state, hq] using h3⟩
    · rename_i p3 hupd
      have h3 := updateMin_queue
        { p with clock := p.clock.update msg.time,
                 receiveTime := p.receiveTime.set msg.senderID.toNat msg.time }
      rw [hupd] at h3
      have hq3 : p3.requestQueue = [] := by simpa [Outcome.state, hq] using h3
      simp only [hk]
      simp [process.delete, hq3, Outcome.isOk, Outcome.state]

/-- Witness for C9 as amended: a process built by `newProcess` receives the
release of its peer; `delete()` panics with an index out of range. -/
theorem receive_release_empty_witness :
    (idle.receive peerRelease).isOk = false ∧
      (idle.receive peerRelease).state.requestQueue = [] :=
  receive_release_empty idle peerRelease rfl rfl

/-- C9, as stated, fails: the queue of process 0 holds `<T0:P0>` only and no
entry of process 1; on the release of process 1 the receive path returns
normally and the queue is empty afterwards. -/
theorem receive_release_empty_counterexample :
    ownQueued.requestQueue = [{ time := 0, process := 0 }] ∧
    (ownQueued.receive peerRelease).isOk = true ∧
    (ownQueued.receive peerRelease).state.requestQueue = [] ∧
    ¬ (∀ (p : process) (msg : message), msg.msgType = .releaseResource →
        (∀ r ∈ p.requestQueue, r.process ≠ msg.senderID) →
        (p.receive msg).isOk = false ∧
          (p.receive msg).state.requestQueue = p.requestQueue) := by
  refine ⟨by decide, by decide, by decide, fun hall => ?_⟩
  have h := (hall ownQueued peerRelease rfl (by decide)).1
  revert h
  decide

/-- C10, as amended: `append(req)` puts `req` at the end of the queue and keeps
every older entry, those of `req.process` included.  If the queue has at most
one entry per process identifier and none for `req.process`, the result has at
most one entry per process identifier and its entry for `req.process` is
`req`. -/
theorem append_keeps (p : process) (req : request) :
    (p.append req).requestQueue = p.requestQueue ++ [req] ∧
    (onePerProcess p.requestQueue → (∀ r ∈ p.requestQueue, r.process ≠ req.process) →
      onePerProcess (p.append req).requestQueue ∧
      ∀ r ∈ (p.append req).requestQueue, r.process = req.process → r = req) := by
  refine ⟨rfl, fun hnd hnew => ⟨?_, ?_⟩⟩
  · unfold onePerProcess at hnd ⊢
    simp only [process.append, List.map_append, List.map_cons, List.map_nil]
    rw [List.nodup_append]
    refine ⟨hnd, List.nodup_singleton _, ?_⟩
    intro x hx hx1
    simp only [List.mem_singleton] at hx1
    obtain ⟨r, hr, hrx⟩ := List.mem_map.mp hx
    exact hnew r hr (by rw [hrx, hx1])
  · intro r hr hproc
    simp only [process.append, List.mem_append, List.mem_singleton] at hr
    rcases hr with hr | hr
    · exact absurd hproc (hnew r hr)
    · exact hr

/-- Witness for C10 as amended: the queue of process 0 holds `<T0:P0>`; the
request `<T1:P1>` of its peer is appended. -/
theorem append_keeps_witness :
    onePerProcess (ownQueued.append { time := 1, process := 1 }).requestQueue ∧
      ∀ r ∈ (ownQueued.append { time := 1, process := 1 }).requestQueue,
        r.process = ({ time := 1, process := 1 } : request).process →
          r = { time := 1, process := 1 } :=
  (append_keeps ownQueued { time := 1, process := 1 }).2 (by decide) (by decide)

/-- C10, as stated, fails: the queue of process 0 holds `<T0:P0>`; appending a
second request `<T5:P0>` of the same process leaves both in the queue. -/
theorem append_keeps_counterexample :
    (ownQueued.append { time := 5, process := 0 }).requestQueue =
      [{ time := 0, process := 0 }, { time := 5, process := 0 }] ∧
    ¬ (∀ (p : process) (req : request), onePerProcess p.requestQueue →
        onePerProcess (p.append req).requestQueue ∧
        ∀ r ∈ (p.append req).requestQueue, r.process = req.process → r = req) := by
  refine ⟨by decide, fun hall => ?_⟩
  have h := (hall ownQueued { time := 5, process := 0 } (by decide)).1
  revert h
  decide

/-! ### Sending -/

/-- The loop of `messaging` over the indices `is`: the destinations are the
indices other than `me`, in the order of `is`; the message at position `k`
carries the clock value at entry plus `k`; only the clock changes, by one per
message. -/
theorem sendLoop_spec (mt : msgType) (r : request) :
    ∀ (is : List Nat) (p : process),
      (process.sendLoop mt r p is).2.map (fun s => s.dest)
        = is.filter (fun (i : Nat) => decide ((i : Int) ≠ p.me)) ∧
      (process.sendLoop mt r p is).1
        = { p with clock := { time := p.clock.time + (process.sendLoop mt r p is).2.length } } ∧
      ∀ (k : Nat) (s : sending), (process.sendLoop mt r p is).2[k]? = some s →
        s.msg = { msgType := mt, time := p.clock.time + k, senderID := p.me, request := r } := by
  intro is
  induction is with
  | nil =>
    intro p
    refine ⟨by simp [process.sendLoop], by simp [process.sendLoop], ?_⟩
    intro k s h
    simp [process.sendLoop] at h
  | cons i rest ih =>
    intro p
    by_cases hi : (i : Int) = p.me
    · obtain ⟨h1, h2, h3⟩ := ih p
      refine ⟨?_, ?_, ?_⟩
      · simpa [process.sendLoop, hi] using h1
      · simpa [process.sendLoop, hi] using h2
      · intro k s h
        exact h3 k s (by simpa [process.sendLoop, hi] using h)
    · obtain ⟨h1, h2, h3⟩ := ih { p with clock := p.clock.tick }
      refine ⟨?_, ?_, ?_⟩
      · simpa [process.sendLoop, hi] using h1
      · simp only [process.sendLoop, hi, if_false, List.length_cons]
        rw [h2]
        simp only [clock.tick, Nat.cast_add, Nat.cast_one]
        congr 2
        omega
      · intro k s h
        simp only [process.sendLoop, hi, if_false] at h
        cases k with
        | zero =>
          simp only [List.getElem?_cons_zero, Option.some.injEq] at h
          subst h
          simp [clock.getTime]
        | succ k =>
          simp only [List.getElem?_cons_succ] at h
          have h4 := h3 k s h
          rw [h4]
          simp only [clock.tick, Nat.cast_add, Nat.cast_one, message.mk.injEq, true_and, and_true]
          omega

theorem peerIndices_length (me : Int) :
    ∀ n : Nat, (peerIndices me n).length = if 0 ≤ me ∧ me < (n : Int) then n - 1 else n := by
  intro n
  induction n with
  | zero =>
    have h : ¬ (0 ≤ me ∧ me < ((0 : Nat) : Int)) := by
      simp only [Nat.cast_zero]
      omega
    simp [peerIndices]
  | succ n ih =>
    unfold peerIndices at ih ⊢
    rw [List.range_succ, List.filter_append, List.length_append, ih]
    push_cast
    by_cases hn : (n : Int) = me
    · have h1 : ¬ (0 ≤ me ∧ me < (n : Int)) := by omega
      have h2 : 0 ≤ me ∧ me < (n : Int) + 1 := by omega
      simp [h1, h2, hn]
    · by_cases hlt : 0 ≤ me ∧ me < (n : Int)
      · have h2 : 0 ≤ me ∧ me < (n : Int) + 1 := by omega
        have hpos : 0 < n := by omega
        simp only [hlt, h2, if_true, and_self, List.filter_cons, hn, ne_eq, not_false_eq_true,
          decide_True, List.filter_nil, List.length_singleton]
        omega
      · have h2 : ¬ (0 ≤ me ∧ me < (n : Int) + 1) := by omega
        simp [hlt, h2, hn]

/-- C12: for a process with `N` channels, `0 ≤ me < N` and clock value `c`,
`messaging(kind, r)` sends to the peers `i ≠ me` in increasing index order, one
message each and none to channel `me`; the `k`-th message carries time
`c + k`, sender `me`, the given kind and `r`, so the `N - 1` times increase
strictly; afterwards the clock is `c + (N - 1)` and nothing else changed. -/
theorem messaging_spec (p : process) (mt : msgType) (r : request)
    (hme : 0 ≤ p.me ∧ p.me < (p.nchans : Int)) :
    (p.messaging mt r).2.map (fun s => s.dest) = peerIndices p.me p.nchans ∧
    (p.messaging mt r).2.length = p.nchans - 1 ∧
    (∀ (k : Nat) (s : sending), (p.messaging mt r).2[k]? = some s →
      s.msg = { msgType := mt, time := p.clock.getTime + k, senderID := p.me,
                request := r }) ∧
    (∀ (k1 k2 : Nat) (s1 s2 : sending), k1 < k2 →
      (p.messaging mt r).2[k1]? = some s1 → (p.messaging mt r).2[k2]? = some s2 →
      s1.msg.time < s2.msg.time) ∧
    (p.messaging mt r).1
      = { p with clock := { time := p.clock.getTime + ((p.nchans - 1 : Nat) : Int) } } := by
  obtain ⟨h1, h2, h3⟩ := sendLoop_spec mt r (List.range p.nchans) p
  have hdest : (p.messaging mt r).2.map (fun s => s.dest) = peerIndices p.me p.nchans := h1
  have hlen : (p.messaging mt r).2.length = p.nchans - 1 := by
    have hl := congrArg List.length hdest
    rw [List.length_map, peerIndices_length p.me p.nchans] at hl
    simpa [hme] using hl
  refine ⟨hdest, hlen, h3, ?_, ?_⟩
  · intro k1 k2 s1 s2 hk hs1 hs2
    have e1 := h3 k1 s1 hs1
    have e2 := h3 k2 s2 hs2
    rw [e1, e2]
    simp only
    omega
  · have h2a : (p.messaging mt r).1 = { p with clock :=
        { time := p.clock.time + (p.messaging mt r).2.length } } := h2
    rw [h2a, hlen]
    rfl

/-- Witness for C12: process 1 of 3 with clock value 7 sends to channels 0 and
2 with times 7 and 8 and ends with clock value 9. -/
theorem messaging_spec_witness :
    (middle.messaging .requestResource { time := 7, process := 1 }).2.map (fun s => s.dest)
      = peerIndices middle.me middle.nchans ∧
    (middle.messaging .requestResource { time := 7, process := 1 }).2.length
      = middle.nchans - 1 ∧
    (∀ (k : Nat) (s : sending),
      (middle.messaging .requestResource { time := 7, process := 1 }).2[k]? = some s →
      s.msg = { msgType := .requestResource, time := middle.clock.getTime + k,
                senderID := middle.me, request := { time := 7, process := 1 } }) ∧
    (∀ (k1 k2 : Nat) (s1 s2 : sending), k1 < k2 →
      (middle.messaging .requestResource { time := 7, process := 1 }).2[k1]? = some s1 →
      (middle.messaging .requestResource { time := 7, process := 1 }).2[k2]? = some s2 →
      s1.msg.time < s2.msg.time) ∧
    (middle.messaging .requestResource { time := 7, process := 1 }).1
      = { middle with clock :=
            { time := middle.clock.getTime + ((middle.nchans - 1 : Nat) : Int) } } :=
  messaging_spec middle .requestResource { time := 7, process := 1 } (by decide)

/-- C11, as amended: for a process with clock value `c`, `request()` puts at
the end of the local queue the request `{time := c, process := me}`, whose
time is the clock value read before the tick, and sends that same request as
RequestResource to every peer, in messages stamped `c + 1`, `c + 2`, ... -/
theorem request_spec (p : process) :
    p.request.1.requestQueue
      = p.requestQueue ++ [{ time := p.clock.getTime, process := p.me }] ∧
    p.request.2.map (fun s => s.dest) = peerIndices p.me p.nchans ∧
    ∀ (k : Nat) (s : sending), p.request.2[k]? = some s →
      s.msg = { msgType := .requestResource, time := p.clock.getTime + 1 + k,
                senderID := p.me,
                request := { time := p.clock.getTime, process := p.me } } := by
  obtain ⟨h1, h2, h3⟩ := sendLoop_spec .requestResource
    { time := p.clock.getTime, process := p.me } (List.range p.nchans)
    { p.append { time := p.clock.getTime, process := p.me } with
      clock := (p.append { time := p.clock.getTime, process := p.me }).clock.tick }
  refine ⟨?_, h1, ?_⟩
  · have hq := congrArg process.requestQueue h2
    exact hq
  · intro k s hs
    exact h3 k s hs

/-- Witness for C11 as amended: process 1 of 3 with clock value 7 queues
`<T7:P1>` and sends it to channels 0 and 2. -/
theorem request_spec_witness :
    middle.request.1.requestQueue = [{ time := 7, process := 1 }] ∧
    middle.request.2.map (fun s => s.msg)
      = [{ msgType := .requestResource, time := 8, senderID := 1,
           request := { time := 7, process := 1 } },
         { msgType := .requestResource, time := 9, senderID := 1,
           request := { time := 7, process := 1 } }] ∧
    middle.request.2.map (fun s => s.dest) = peerIndices middle.me middle.nchans :=
  ⟨(request_spec middle).1, by decide, (request_spec middle).2.1⟩

/-- C11, as stated, fails: a process with clock value 7 queues a request of
time 7, not of time 8. -/
theorem request_spec_counterexample :
    middle.clock.getTime = 7 ∧
    middle.request.1.requestQueue = [{ time := 7, process := 1 }] ∧
    ¬ (∀ p : process,
        ({ time := p.clock.getTime + 1, process := p.me } : request)
          ∈ p.request.1.requestQueue) := by
  refine ⟨rfl, by decide, fun h => ?_⟩
  have h1 := h middle
  revert h1
  decide

/-! ### The receive-time bookkeeping -/

theorem minLoop_attained (me : Int) :
    ∀ (ts : List Int) (i : Nat) (m : Int),
      minLoop me i ts m = m ∨
      ∃ (k : Nat) (t : Int), ts[k]? = some t ∧ ((i + k : Nat) : Int) ≠ me ∧
        minLoop me i ts m = t := by
  intro ts
  induction ts with
  | nil => intro i m; exact Or.inl rfl
  | cons t0 ts ih =>
    intro i m
    have hshift : ∀ k : Nat, i + 1 + k = i + (k + 1) := by intro k; omega
    by_cases hi : (i : Int) = me
    · simp only [minLoop, hi, if_true]
      rcases ih (i + 1) m with h | ⟨k, t, hk, hne, h⟩
      · exact Or.inl h
      · exact Or.inr ⟨k + 1, t, by simpa using hk, by rw [← hshift]; exact hne, h⟩
    · simp only [minLoop, hi, if_false]
      rcases ih (i + 1) (min m t0) with h | ⟨k, t, hk, hne, h⟩
      · rcases min_choice m t0 with hm | hm
        · exact Or.inl (by rw [h, hm])
        · exact Or.inr ⟨0, t0, by simp, by simpa using hi, by rw [h, hm]⟩
      · exact Or.inr ⟨k + 1, t, by simpa using hk, by rw [← hshift]; exact hne, h⟩

theorem updateMin_value (p : process) (hlen : p.receiveTime.length = p.nchans)
    (hme : 0 ≤ p.me ∧ p.me < (p.nchans : Int)) :
    p.updateMinReceiveTime =
      .ok { p with
            minReceiveTime := minLoop p.me 0 p.receiveTime
              (p.receiveTime.getD (Int.tmod (p.me + 1) (p.nchans : Int)).toNat 0) } := by
  have hn : p.nchans ≠ 0 := by
    intro h0
    rw [h0] at hme
    omega
  have hpos : (0 : Int) < (p.nchans : Int) := by omega
  have h1 : 0 ≤ Int.tmod (p.me + 1) (p.nchans : Int) := Int.tmod_nonneg _ (by omega)
  have h2 : Int.tmod (p.me + 1) (p.nchans : Int) < (p.nchans : Int) :=
    Int.tmod_lt_of_pos _ hpos
  have hidx : ¬ (Int.tmod (p.me + 1) (p.nchans : Int) < 0 ∨
      (p.receiveTime.length : Int) ≤ Int.tmod (p.me + 1) (p.nchans : Int)) := by
    rw [hlen]
    omega
  unfold process.updateMinReceiveTime
  simp only [hn, if_false, hidx]

/-- With at least two channels the start index `(me + 1) % N` is the index of a
peer. -/
theorem startIndex_peer (me : Int) (n : Nat) (hn : 2 ≤ n)
    (hme : 0 ≤ me ∧ me < (n : Int)) :
    0 ≤ Int.tmod (me + 1) (n : Int) ∧ Int.tmod (me + 1) (n : Int) < (n : Int) ∧
      Int.tmod (me + 1) (n : Int) ≠ me := by
  by_cases hlast : me + 1 < (n : Int)
  · rw [Int.tmod_eq_of_lt (by omega) hlast]
    omega
  · have he : me + 1 = (n : Int) := by omega
    rw [he, Int.tmod_self]
    omega

/-- C13: for a process with `N ≥ 2` channels, `0 ≤ me < N` and a receive-time
vector of length `N`, `updateMinReceiveTime` returns normally, changes the
field `minReceiveTime` only and sets it to the minimum of `receiveTime[j]` over
the peers `j ≠ me`. -/
theorem updateMin_spec (p : process) (hn : 2 ≤ p.nchans)
    (hme : 0 ≤ p.me ∧ p.me < (p.nchans : Int))
    (hlen : p.receiveTime.length = p.nchans) :
    ∃ m, p.updateMinReceiveTime = .ok { p with minReceiveTime := m } ∧
      isPeerMin p.me p.receiveTime m := by
  obtain ⟨i1, i2, i3⟩ := startIndex_peer p.me p.nchans hn hme
  have hcast : ((Int.tmod (p.me + 1) (p.nchans : Int)).toNat : Int)
      = Int.tmod (p.me + 1) (p.nchans : Int) := Int.toNat_of_nonneg i1
  have hlt : (Int.tmod (p.me + 1) (p.nchans : Int)).toNat < p.receiveTime.length := by
    rw [hlen]
    omega
  have hget : p.receiveTime[(Int.tmod (p.me + 1) (p.nchans : Int)).toNat]?
      = some (p.receiveTime.getD (Int.tmod (p.me + 1) (p.nchans : Int)).toNat 0) := by
    rw [List.getD_eq_getElem _ _ hlt]
    exact List.getElem?_eq_getElem hlt
  refine ⟨_, updateMin_value p hlen hme, ?_, ?_⟩
  · intro j t hj ht
    exact minLoop_le_get p.me p.receiveTime 0 _ j t ht (by simpa using hj)
  · rcases minLoop_attained p.me p.receiveTime 0
        (p.receiveTime.getD (Int.tmod (p.me + 1) (p.nchans : Int)).toNat 0) with h | h
    · refine ⟨(Int.tmod (p.me + 1) (p.nchans : Int)).toNat, ?_, ?_⟩
      · rw [hcast]
        exact i3
      · rw [h]
        exact hget
    · obtain ⟨k, t, hk, hne, h⟩ := h
      refine ⟨k, by simpa using hne, ?_⟩
      rw [h]
      exact hk

/-- Witness for C13: process 1 of 3 with receive times `[9, 0, 7]`; its own
slot holds the smallest value and is not taken into account. -/
theorem updateMin_spec_witness :
    ∃ m, passedOver.updateMinReceiveTime = .ok { passedOver with minReceiveTime := m } ∧
      isPeerMin passedOver.me passedOver.receiveTime m :=
  updateMin_spec passedOver (by decide) (by decide) (by decide)

/-- C14: for a process with `0 ≤ me < N` and a receive-time vector of length
`N`, the receive path applied to an Acknowledgment message of a peer `j ≠ me`
(`0 ≤ j < N`) with time `t` returns normally, leaves the request queue
unchanged, sets `receiveTime[j] = t`, leaves every other slot unchanged and
sets `minReceiveTime` to the minimum over the updated peer entries. -/
theorem receive_ack (p : process) (msg : message)
    (hk : msg.msgType = .acknowledgment)
    (hlen : p.receiveTime.length = p.nchans)
    (hme : 0 ≤ p.me ∧ p.me < (p.nchans : Int))
    (hj : 0 ≤ msg.senderID ∧ msg.senderID < (p.nchans : Int))
    (hne : msg.senderID ≠ p.me) :
    ∃ p1, p.receive msg = .ok p1 ∧
      p1.requestQueue = p.requestQueue ∧
      p1.receiveTime[msg.senderID.toNat]? = some msg.time ∧
      (∀ k : Nat, k ≠ msg.senderID.toNat → p1.receiveTime[k]? = p.receiveTime[k]?) ∧
      isPeerMin p.me p1.receiveTime p1.minReceiveTime := by
  have hidx : ¬ (msg.senderID < 0 ∨ (p.receiveTime.length : Int) ≤ msg.senderID) := by
    rw [hlen]
    omega
  have hn : 2 ≤ p.nchans := by omega
  have hjlt : msg.senderID.toNat < p.receiveTime.length := by
    rw [hlen]
    omega
  obtain ⟨m, hupd, hmin⟩ := updateMin_spec
    { p with
      clock := p.clock.update msg.time
      receiveTime := p.receiveTime.set msg.senderID.toNat msg.time }
    hn hme (by simp [hlen])
  have hrecv : p.receive msg = .ok
      { p with
        clock := p.clock.update msg.time
        receiveTime := p.receiveTime.set msg.senderID.toNat msg.time
        minReceiveTime := m } := by
    unfold process.receive
    simp only [hidx, if_false, hupd, hk]
  refine ⟨_, hrecv, rfl, ?_, ?_, hmin⟩
  · simp [List.getElem?_set, hjlt]
  · intro k hkne
    simp [List.getElem?_set, Ne.symm hkne]

/-- Witness for C14: process 1 of 3 with receive times `[9, 0, 7]` receives an
acknowledgment of process 2 stamped 12. -/
theorem receive_ack_witness :
    ∃ p1, passedOver.receive peerAck = .ok p1 ∧
      p1.requestQueue = passedOver.requestQueue ∧
      p1.receiveTime[peerAck.senderID.toNat]? = some peerAck.time ∧
      (∀ k : Nat, k ≠ peerAck.senderID.toNat →
        p1.receiveTime[k]? = passedOver.receiveTime[k]?) ∧
      isPeerMin passedOver.me p1.receiveTime p1.minReceiveTime :=
  receive_ack passedOver peerAck rfl (by decide) (by decide) (by decide) (by decide)

/-! ### Releasing -/

/-- C15 fails on the code: at the end of `staleHolderSchedule` process 1 holds
the resource and its queue is `[<T0:P0>, <T6:P1>]`, its own request being the
second entry.  Its `release()` returns normally, removes `<T0:P0>`, keeps its
own `<T6:P1>` and sends a ReleaseResource message carrying `<T0:P0>`. -/
theorem release_sends_other_request :
    ∃ s p e, (startSystemWith 2 2).run staleHolderSchedule = some (.ok s) ∧
      s.procs[1]? = some p ∧
      s.rsc.occupiedBy = 1 ∧
      p.requestQueue = [{ time := 0, process := 0 }, { time := 6, process := 1 }] ∧
      p.release s.rsc = .ok e ∧
      e.proc.requestQueue = [{ time := 6, process := 1 }] ∧
      e.sent.map (fun x => x.msg.request) = [{ time := 0, process := 0 }] :=
  ⟨_, _, _, rfl, rfl, rfl, rfl, rfl, rfl, rfl⟩

/-- C16: for a process with `me ≥ 0` that does not hold the resource (the guard
is free or held by another process), `release()` panics, and when the panic is
raised the process, its request queue included, and the guard are unchanged and
no message has been sent. -/
theorem release_not_holder (p : process) (rsc : resource) (hme : 0 ≤ p.me)
    (hnot : rsc.occupiedBy = NOBODY ∨ rsc.occupiedBy ≠ p.me) :
    ∃ why, p.release rsc = .panic why { proc := p, rsc := rsc, sent := [] } := by
  have hne : rsc.occupiedBy ≠ p.me := by
    rcases hnot with h | h
    · rw [h]
      unfold NOBODY
      omega
    · exact h
  cases hq : p.requestQueue with
  | nil => exact ⟨.indexOutOfRange, by simp [process.release, hq]⟩
  | cons r t => exact ⟨.notHolder, by simp [process.release, hq, resource.release, hne]⟩

/-- Witness for C16: process 0 has queued its request and calls `release()`
although the guard is free. -/
theorem release_not_holder_witness :
    ∃ why, ownQueued.release newResource
      = .panic why { proc := ownQueued, rsc := newResource, sent := [] } :=
  release_not_holder ownQueued newResource (by decide) (Or.inl rfl)

/-! ### The shape of the queue after `delete()` -/

/-- C18: on a non-empty queue `q` of length `n`, `delete()` returns normally
with a queue of length `n - 1` that holds the entries of `q` without its first
one; when `n ≥ 2` the old last entry `q[n-1]` is the new first entry and the
positions `1 .. n-2` are unchanged.  On an empty queue `delete()` panics with
an index out of range and changes nothing. -/
theorem delete_spec (p : process) :
    (p.requestQueue = [] → p.delete = .panic .indexOutOfRange p) ∧
    (∀ (h : request) (t : List request), p.requestQueue = h :: t →
      ∃ q1, p.delete = .ok { p with requestQueue := q1 } ∧
        q1.length = p.requestQueue.length - 1 ∧
        q1.Perm t ∧
        (2 ≤ p.requestQueue.length →
          q1[0]? = p.requestQueue[p.requestQueue.length - 1]?) ∧
        ∀ i : Nat, 1 ≤ i → i + 2 ≤ p.requestQueue.length →
          q1[i]? = p.requestQueue[i]?) := by
  refine ⟨fun hq => by simp [process.delete, hq], ?_⟩
  intro h t hq
  rcases List.eq_nil_or_concat t with ht | ⟨t1, l, ht⟩
  · subst ht
    refine ⟨[], delete_single p h hq, by simp [hq], List.Perm.refl _, ?_, ?_⟩
    · intro h2
      simp [hq] at h2
    · intro i h1 h2
      simp only [hq, List.length_singleton] at h2
      omega
  · rw [List.concat_eq_append] at ht
    subst ht
    refine ⟨l :: t1, delete_cons_snoc p h l t1 hq, by simp [hq],
      (List.perm_append_singleton l t1).symm, ?_, ?_⟩
    · intro _
      simp [hq]
    · intro i h1 h2
      simp only [hq, List.length_cons, List.length_append, List.length_singleton,
        List.length_nil] at h2
      cases i with
      | zero => omega
      | succ i =>
        have hi : i < t1.length := by omega
        simp only [hq, List.getElem?_cons_succ]
        rw [List.getElem?_append_left hi]

/-- Witness for C18: the queue `[<T5:P1>, <T6:P0>, <T8:P2>]` becomes
`[<T8:P2>, <T6:P0>]`, so the entry that arrived last is now first; on the
empty queue of a new process `delete()` panics. -/
theorem delete_spec_witness :
    (∃ q1, holderFirst.delete = .ok { holderFirst with requestQueue := q1 } ∧
        q1.length = holderFirst.requestQueue.length - 1 ∧
        q1.Perm [{ time := 6, process := 0 }, { time := 8, process := 2 }] ∧
        (2 ≤ holderFirst.requestQueue.length →
          q1[0]? = holderFirst.requestQueue[holderFirst.requestQueue.length - 1]?) ∧
        ∀ i : Nat, 1 ≤ i → i + 2 ≤ holderFirst.requestQueue.length →
          q1[i]? = holderFirst.requestQueue[i]?) ∧
    holderFirst.delete = .ok { holderFirst with
      requestQueue := [{ time := 8, process := 2 }, { time := 6, process := 0 }] } ∧
    idle.delete = .panic .indexOutOfRange idle :=
  ⟨(delete_spec holderFirst).2 { time := 5, process := 1 }
      [{ time := 6, process := 0 }, { time := 8, process := 2 }] rfl,
   by decide,
   (delete_spec idle).1 rfl⟩

/-! ### The log of the guard -/

/-- C19: in every guard state reached from `newResource` by calls of `occupy2`
and `release2` that return normally, with timestamps other than `NOBODY2`:
a free guard has `len(times) = 2 * len(timestamps)`, a held guard has
`len(times) = 2 * len(timestamps) - 1` and the last element of `timestamps` is
the holder; so the guard is held exactly when `len(times)` is odd. -/
theorem guard_log_consistent (r : resource) (hr : GuardReach r) :
    (r.occupiedBy2 = NOBODY2 → r.times.length = 2 * r.timestamps.length) ∧
    (r.occupiedBy2 ≠ NOBODY2 →
      r.times.length = 2 * r.timestamps.length - 1 ∧ 0 < r.timestamps.length ∧
      r.timestamps.getLast? = some r.occupiedBy2) ∧
    (r.occupiedBy2 ≠ NOBODY2 ↔ r.times.length % 2 = 1) := by
  induction hr with
  | start => simp [newResource]
  | @occupy2 r r1 ts now _ hts hok ih =>
    have hfree : r.occupiedBy2 = NOBODY2 := by
      by_contra hheld
      rw [occupy2_held r ts now hheld] at hok
      simp at hok
    rw [occupy2_free r ts now hfree] at hok
    simp only [Outcome.ok.injEq] at hok
    subst hok
    have h0 := ih.1 hfree
    simp only [List.length_append, List.length_singleton]
    refine ⟨fun h => absurd h hts, fun _ => ⟨by omega, by omega, List.getLast?_concat _⟩, ?_⟩
    constructor
    · intro _
      omega
    · intro _
      exact hts
  | @release2 r r1 ts now _ hts hok ih =>
    have hholder : r.occupiedBy2 = ts := by
      by_contra hother
      rw [release2_other r ts now hother] at hok
      simp at hok
    rw [release2_holder r ts now hholder] at hok
    simp only [Outcome.ok.injEq] at hok
    subst hok
    have hheld : r.occupiedBy2 ≠ NOBODY2 := by rw [hholder]; exact hts
    obtain ⟨h1, h2, _⟩ := ih.2.1 hheld
    simp only [List.length_append, List.length_singleton]
    refine ⟨fun _ => by omega, fun h => absurd rfl h, ?_⟩
    constructor
    · intro h
      exact absurd rfl h
    · intro h
      omega

/-- Witness for C19: after `occupy2(<T0:P0>)` on a new guard the log holds one
timestamp and one time, and the guard is held by `<T0:P0>`. -/
theorem guard_log_consistent_witness :
    (takenOnce.occupiedBy2 = NOBODY2 → takenOnce.times.length = 2 * takenOnce.timestamps.length) ∧
    (takenOnce.occupiedBy2 ≠ NOBODY2 →
      takenOnce.times.length = 2 * takenOnce.timestamps.length - 1 ∧
      0 < takenOnce.timestamps.length ∧
      takenOnce.timestamps.getLast? = some takenOnce.occupiedBy2) ∧
    (takenOnce.occupiedBy2 ≠ NOBODY2 ↔ takenOnce.times.length % 2 = 1) :=
  guard_log_consistent takenOnce
    (GuardReach.occupy2 { time := 0, process := 0 } 10 GuardReach.start (by decide) rfl)

/-! ### The order of the recorded occupations -/

theorem less_trans (a b c : timestamp) (hab : less a b = true) (hbc : less b c = true) :
    less a c = true := by
  simp only [less, Bool.or_eq_true, Bool.and_eq_true, decide_eq_true_eq] at *
  omega

theorem less_irrefl (a : timestamp) : less a a = false := by
  simp [less]

theorem sortedLoop_iff (ts : List timestamp) :
    ∀ is : List Nat, sortedLoop ts is = true ↔
      ∀ i ∈ is, less (ts.getD (i - 1) NOBODY2) (ts.getD i NOBODY2) = true := by
  intro is
  induction is with
  | nil => simp [sortedLoop]
  | cons i rest ih =>
    by_cases h : less (ts.getD (i - 1) NOBODY2) (ts.getD i NOBODY2) = true
    · simp only [sortedLoop, h, Bool.not_true, Bool.false_eq_true, if_false, ih]
      constructor
      · intro hall k hk
        rcases List.mem_cons.mp hk with hki | hkr
        · rw [hki]
          exact h
        · exact hall k hkr
      · intro hall k hk
        exact hall k (List.mem_cons_of_mem i hk)
    · have hf : less (ts.getD (i - 1) NOBODY2) (ts.getD i NOBODY2) = false := by
        simpa using h
      simp only [sortedLoop, hf, Bool.not_false, if_true]
      constructor
      · intro hcontra
        exact absurd hcontra (by decide)
      · intro hall
        have h1 := hall i (List.mem_cons_self i rest)
        rw [hf] at h1
        exact h1

theorem getD_of_getElem? (ts : List timestamp) (i : Nat) (a : timestamp)
    (h : ts[i]? = some a) : ts.getD i NOBODY2 = a := by
  rw [List.getD_eq_getElem?_getD, h]
  rfl

/-- What `isSortedOccupied` tests: every two neighbours are in order. -/
theorem isSortedOccupied_adjacent (r : resource) :
    r.isSortedOccupied = true ↔
      ∀ (k : Nat) (a b : timestamp), r.timestamps[k]? = some a →
        r.timestamps[k + 1]? = some b → less a b = true := by
  unfold resource.isSortedOccupied
  rw [sortedLoop_iff]
  constructor
  · intro h k a b ha hb
    have hk : k + 1 < r.timestamps.length := by
      rcases Nat.lt_or_ge (k + 1) r.timestamps.length with h1 | h1
      · exact h1
      · rw [List.getElem?_eq_none h1] at hb
        simp at hb
    have h1 := h (k + 1) (List.mem_range'_1.mpr ⟨by omega, by omega⟩)
    rw [getD_of_getElem? _ _ b hb] at h1
    simp only [Nat.add_sub_cancel] at h1
    rw [getD_of_getElem? _ _ a ha] at h1
    exact h1
  · intro h i hi
    obtain ⟨h1, h2⟩ := List.mem_range'_1.mp hi
    have hlt : i < r.timestamps.length := by omega
    have hlt1 : i - 1 < r.timestamps.length := by omega
    have ha := List.getElem?_eq_getElem hlt1
    have hb := List.getElem?_eq_getElem hlt
    rw [getD_of_getElem? _ _ _ ha, getD_of_getElem? _ _ _ hb]
    have hb1 : r.timestamps[i - 1 + 1]? = some r.timestamps[i] := by
      have he : i - 1 + 1 = i := by omega
      rw [he]
      exact hb
    exact h (i - 1) _ _ ha hb1

/-- C20: `isSortedOccupied` returns true if and only if the recorded timestamps
are strictly increasing for every pair of positions `i < j`; it returns true on
lists of at most one element and false whenever a timestamp occurs at two
positions. -/
theorem isSortedOccupied_spec (r : resource) :
    (r.isSortedOccupied = true ↔
      ∀ (i j : Nat) (a b : timestamp), i < j → r.timestamps[i]? = some a →
        r.timestamps[j]? = some b → less a b = true) ∧
    (r.timestamps.length ≤ 1 → r.isSortedOccupied = true) ∧
    (∀ (i j : Nat) (a : timestamp), i ≠ j → r.timestamps[i]? = some a →
      r.timestamps[j]? = some a → r.isSortedOccupied = false) := by
  have hpair : r.isSortedOccupied = true →
      ∀ (d i : Nat) (a b : timestamp), r.timestamps[i]? = some a →
        r.timestamps[i + d + 1]? = some b → less a b = true := by
    intro hs d
    have hadj := (isSortedOccupied_adjacent r).mp hs
    induction d with
    | zero =>
      intro i a b ha hb
      exact hadj i a b ha hb
    | succ d ih =>
      intro i a b ha hb
      have hlt : i + d + 1 < r.timestamps.length := by
        rcases Nat.lt_or_ge (i + (d + 1) + 1) r.timestamps.length with h1 | h1
        · omega
        · rw [List.getElem?_eq_none h1] at hb
          simp at hb
      have hc := List.getElem?_eq_getElem hlt
      have h1 := ih i a _ ha hc
      have h2 := hadj (i + d + 1) _ b hc hb
      exact less_trans _ _ _ h1 h2
  have hiff : r.isSortedOccupied = true ↔
      ∀ (i j : Nat) (a b : timestamp), i < j → r.timestamps[i]? = some a →
        r.timestamps[j]? = some b → less a b = true := by
    constructor
    · intro hs i j a b hij ha hb
      have he : j = i + (j - i - 1) + 1 := by omega
      rw [he] at hb
      exact hpair hs (j - i - 1) i a b ha hb
    · intro h
      rw [isSortedOccupied_adjacent]
      intro k a b ha hb
      exact h k (k + 1) a b (by omega) ha hb
  refine ⟨hiff, ?_, ?_⟩
  · intro hlen
    rw [isSortedOccupied_adjacent]
    intro k a b _ hb
    have h1 : r.timestamps.length ≤ k + 1 := by omega
    rw [List.getElem?_eq_none h1] at hb
    simp at hb
  · intro i j a hij ha hb
    cases hs : r.isSortedOccupied with
    | false => rfl
    | true =>
      have hall := hiff.mp hs
      have hirr := less_irrefl a
      rcases Nat.lt_or_gt_of_ne hij with h1 | h1
      · rw [hall i j a a h1 ha hb] at hirr
        simp at hirr
      · rw [hall j i a a h1 hb ha] at hirr
        simp at hirr

/-- Witness for C20: the log `[<T0:P0>, <T0:P1>, <T2:P0>]` is accepted, a new
guard with an empty log is accepted, and the log
`[<T0:P1>, <T2:P0>, <T0:P1>]`, which holds `<T0:P1>` twice, is rejected. -/
theorem isSortedOccupied_spec_witness :
    orderedLog.isSortedOccupied = true ∧
    less { time := 0, process := 0 } { time := 2, process := 0 } = true ∧
    newResource.isSortedOccupied = true ∧
    repeatedLog.isSortedOccupied = false :=
  ⟨by decide,
   (isSortedOccupied_spec orderedLog).1.1 (by decide) 0 2 _ _ (by decide) rfl rfl,
   (isSortedOccupied_spec newResource).2.1 (by decide),
   (isSortedOccupied_spec repeatedLog).2.2 0 2 { time := 0, process := 1 } (by decide) rfl rfl⟩

/-! ### Message rendering -/

/-- C17: a message of kind `k`, time `t`, sender `f`, receiver `r` and
timestamp `<Ta:Pp>` is rendered as `{K, Time:t, From:f, To:r, <Ta:Pp>}` with
`K` the name of the kind; the text after `K` does not depend on the kind;
the three renderings expected by `Test_Message` are obtained. -/
theorem message_String_spec (k : msgType) (t f r a p : Int) :
    (newMessage2 k t f r { time := a, process := p }).String
      = "\x7b" ++ k.String ++ ", Time:" ++ toString t ++ ", From:" ++ toString f
          ++ ", To:" ++ toString r ++ ", " ++ ("<T" ++ toString a ++ ":P" ++ toString p ++ ">")
          ++ "\x7d" ∧
    (msgType.requestResource.String = "申请资源" ∧
      msgType.releaseResource.String = "释放资源" ∧
      msgType.acknowledgment.String = "确认收到") ∧
    (∃ tail : String, ∀ k1 : msgType,
      ({ newMessage2 k t f r { time := a, process := p } with msgType := k1 } : message2).String
        = "\x7b" ++ k1.String ++ tail) ∧
    ((newMessage2 .requestResource 0 0 others { time := 0, process := 0 }).String
        = "\x7b申请资源, Time:0, From:0, To:-1, <T0:P0>\x7d" ∧
      (newMessage2 .releaseResource 0 0 others { time := 0, process := 0 }).String
        = "\x7b释放资源, Time:0, From:0, To:-1, <T0:P0>\x7d" ∧
      (newMessage2 .acknowledgment 0 0 others { time := 0, process := 0 }).String
        = "\x7b确认收到, Time:0, From:0, To:-1, <T0:P0>\x7d") := by
  refine ⟨rfl, ⟨rfl, rfl, rfl⟩, ?_, ⟨by decide, by decide, by decide⟩⟩
  refine ⟨", Time:" ++ toString t ++ ", From:" ++ toString f ++ ", To:" ++ toString r
    ++ ", " ++ ("<T" ++ toString a ++ ":P" ++ toString p ++ ">") ++ "\x7d", ?_⟩
  intro k1
  simp only [message2.String, newMessage2, timestamp.String, String.append_assoc]

end Mutual
